import Mathlib

/-!
Shallow embedding of the commit-chain core of `git-pr-chain.py`.

A commit message is one string, exactly as the source holds it, and the two
message regexes are modelled over the whole string: in both patterns `\s*`
matches newlines, so an annotation match or a stop match may span lines.
Parent hashes are modelled as the list of fields of
`git show --format=%P` output.  Machinery that talks to the network (git
pushes, the GitHub API) is modelled by the pure decision logic the source
wraps around it.
-/

deriving instance DecidableEq for Except

namespace GitPrChain

/-- One local commit: content hash, message and the parent hashes reported by
the underlying repository.  Mirrors `class Commit` (`git-pr-chain.py`, lines
146-202): the `parent` link of the source is represented positionally, a
chain being a list of commits whose head's ancestors are the tail. -/
structure Commit where
  sha : String
  commit_msg : String
  parents : List String
deriving DecidableEq, Repr

/-- Python `\s` over the ASCII range: space, tab, newline, carriage return,
vertical tab and form feed.  (The messages considered here are ASCII.) -/
def isPySpace (c : Char) : Bool :=
  c = ' ' || c = '\t' || c = '\n' || c = '\r' || c = '\x0b' || c = '\x0c'

/-- Length of the annotation keyword-plus-colon starting here, if any: the
alternation `(?:git-pr-chain|GPC):` tried at one position. -/
def kwAt (s : List Char) : Option Nat :=
  if (String.toList "git-pr-chain:").isPrefixOf s then some 13
  else if (String.toList "GPC:").isPrefixOf s then some 4
  else none

/-- The `re.findall(r"^(?:git-pr-chain|GPC):\s*(.*)", msg, re.MULTILINE)`
scan: positions are tried left to right, a keyword may only match at the
start of the string or just after a newline, the greedy `\s*` then consumes
the maximal whitespace run — across newlines, so an empty-value annotation
line merges with the following line into a single match — and `(.*)` captures
up to the next newline or the end; scanning resumes after the capture.
`fuel` (instantiated with the message length, an upper bound on the number of
steps since every step consumes at least one character) makes the recursion
structural. -/
def scanGPC : Nat → Bool → List Char → List (List Char)
  | 0, _, _ => []
  | _ + 1, _, [] => []
  | fuel + 1, atStart, c :: rest =>
    match (if atStart then kwAt (c :: rest) else none) with
    | some k =>
      let afterWs := ((c :: rest).drop k).dropWhile isPySpace
      let value := afterWs.takeWhile (fun ch => ch ≠ '\n')
      let remainder := afterWs.dropWhile (fun ch => ch ≠ '\n')
      value :: scanGPC fuel false remainder
    | none => scanGPC fuel (c = '\n') rest

/-- All annotation values found in a message, in match order: the result of
the `re.findall` call in `Commit.gh_branch` (line 164). -/
def findGPCLines (msg : String) : List String :=
  (scanGPC msg.toList.length true msg.toList).map String.mk

/-- Does the character list start with `kw` followed by whitespace — possibly
spanning newlines — and the literal characters `STOP>`?  In the source
pattern `(git-pr-chain|GPC):\s*STOP\>` (line 185), `\>` is an escaped literal
`>` under Python `re`, not a word boundary. -/
def stopFrom (kw : List Char) (s : List Char) : Bool :=
  kw.isPrefixOf s &&
    (String.toList "STOP>").isPrefixOf ((s.drop kw.length).dropWhile isPySpace)

/-- Does a stop-marker match begin at the head of `s`? -/
def stopAt (s : List Char) : Bool :=
  stopFrom (String.toList "git-pr-chain:") s || stopFrom (String.toList "GPC:") s

/-- The `re.search(r"(git-pr-chain|GPC):\s*STOP\>", self.commit_msg)` test of
`Commit.not_to_be_pushed` (line 185): unanchored over the whole message, a
match may begin at any position. -/
def msgHasStop (msg : String) : Bool :=
  msg.toList.tails.any stopAt

/-- The `not_to_be_pushed` property (lines 178-185) of the head commit of a
chain: true when the parent chain is already marked, or the message itself
contains the stop pattern. -/
def not_to_be_pushed : List Commit → Bool
  | [] => false
  | c :: ps => not_to_be_pushed ps || msgHasStop c.commit_msg

/-- Fatal errors raised while resolving labels or planning pull requests. -/
inductive GPCError where
  | multipleGPCLines (sha : String)
  | multipleOpenPRs (branch : String) (urls : List String)
deriving DecidableEq, Repr

/-- The `gh_branch` property (lines 156-176) of the head commit of a chain:
`None` when the commit is marked not-to-be-pushed; otherwise the single
annotation value if exactly one line matched; inherited from the parent when
none matched; a fatal error naming the commit when several matched. -/
def gh_branch : List Commit → Except GPCError (Option String)
  | [] => Except.ok none
  | c :: ps =>
    if not_to_be_pushed (c :: ps) then Except.ok none
    else
      match findGPCLines c.commit_msg with
      | [] => gh_branch ps
      | [m] => Except.ok (some m)
      | _ => Except.error (GPCError.multipleGPCLines c.sha)

/-- Resolve the labels of every commit of a chain given root-first, as
`branch_commits` (lines 299-333) builds it; `ps` accumulates the already
visited ancestors head-first. -/
def resolve_go (ps : List Commit) : List Commit → Except GPCError (List (Option String))
  | [] => Except.ok []
  | c :: rest =>
    match gh_branch (c :: ps) with
    | Except.error e => Except.error e
    | Except.ok l =>
      match resolve_go (c :: ps) rest with
      | Except.error e => Except.error e
      | Except.ok t => Except.ok (l :: t)

/-- Labels of a root-first chain, or the first fatal error. -/
def resolve_all (cs : List Commit) : Except GPCError (List (Option String)) :=
  resolve_go [] cs

/-- Python `str.split(sep)` for a one-character separator: split at every
occurrence, keeping empty pieces. -/
def splitOnChar (sep : Char) : List Char → List (List Char)
  | [] => [[]]
  | c :: rest =>
    match splitOnChar sep rest with
    | [] => [[]]
    | g :: gs => if c = sep then [] :: g :: gs else (c :: g) :: gs

/-- Python `" ".join(parts)` at character level. -/
def joinSpace : List (List Char) → List Char
  | [] => []
  | [p] => p
  | p :: q :: rest => p ++ (' ' :: joinSpace (q :: rest))

/-- The stripped output of `git show --no-patch --format=%P`: the parent
hashes separated by single spaces on one line. -/
def parentsLine (c : Commit) : List Char :=
  joinSpace (c.parents.map String.toList)

/-- The `is_merge_commit` property (lines 187-190): the source splits the
`%P` output on `"\n"` and asks for more than one piece, although the parent
hashes all sit on a single line separated by spaces. -/
def is_merge_commit (c : Commit) : Bool :=
  1 < (splitOnChar ('\n') (parentsLine c)).length

/-- A commit as `validate_branch_commits` consumes it: identity plus the two
cached derived properties the function reads. -/
structure VCommit where
  sha : String
  is_merge : Bool
  label : Option String
deriving DecidableEq, Repr, Inhabited

/-- The commits of a chain paired with their resolved labels and the derived
merge flag, i.e. the `Commit` objects as they reach validation. -/
def deriveV (cs : List Commit) (labels : List (Option String)) : List VCommit :=
  (cs.zip labels).map fun p =>
    { sha := p.1.sha, is_merge := is_merge_commit p.1, label := p.2 }

/-- The `itertools.groupby(commits, lambda c: c.gh_branch)` call: maximal runs
of consecutive commits with equal label, as (key, run) pairs in order. -/
def groupByLabel : List VCommit → List (Option String × List VCommit)
  | [] => []
  | c :: rest =>
    match groupByLabel rest with
    | [] => [(c.label, [c])]
    | (k, g) :: gs =>
      if c.label = k then (k, c :: g) :: gs else (c.label, [c]) :: (k, g) :: gs

/-- Keys of the maximal runs of a label sequence, in order. -/
def runKeys : List (Option String) → List (Option String)
  | [] => []
  | l :: rest =>
    match runKeys rest with
    | [] => [l]
    | k :: ks => if l = k then k :: ks else l :: k :: ks

/-- First-occurrence-ordered distinct keys, as `collections.Counter` stores
them. -/
def dedupKeys : List String → List String
  | [] => []
  | k :: rest => k :: (dedupKeys rest).filter (fun x => x ≠ k)

/-- Group keys that pass the `if branch` truthiness filter feeding the
`Counter` (line 261): `None` and the empty string are falsy in Python and
are skipped. -/
def truthy (o : Option String) : Option String :=
  o.bind fun b => if b = "" then none else some b

/-- The distinct validation failures of `validate_branch_commits`, each
carrying the identities the fatal message lists. -/
inductive VError where
  | mergeCommits (shas : List String)
  | aaba (branches : List String)
  | unableToInfer (shas : List String)
deriving DecidableEq, Repr

/-- The `commits_without_branch` computation (lines 281-285) applied to a
group list: all but the first and last group, keeping falsy keys, flattened. -/
def commitsWithoutBranch (groups : List (Option String × List VCommit)) : List VCommit :=
  (((groups.drop 1).dropLast).filter (fun g => truthy g.1 = none)).flatMap (fun g => g.2)

/-- `validate_branch_commits` (lines 230-296).  Checks in order: merge
commits; repeated-after-interruption (AABA) labels via a `Counter` of the
truthy group keys; then the defensive no-`None`-in-the-middle check.  In the
source `grouped_commits` is the single-pass iterator returned by
`itertools.groupby`, and the `Counter(...)` generator has already exhausted it
by the time `list(grouped_commits)[1:-1]` runs, so that list is always empty
and the third check can never fire; the embedding keeps that behaviour. -/
def validate_branch_commits (commits : List VCommit) : Option VError :=
  let merge_commits := commits.filter (fun c => c.is_merge)
  if merge_commits.isEmpty = false then
    some (VError.mergeCommits (merge_commits.map (fun c => c.sha)))
  else
    let grouped_commits := groupByLabel commits
    let ctr_keys := grouped_commits.filterMap (fun g => truthy g.1)
    let repeated_branches := (dedupKeys ctr_keys).filter (fun b => 1 < ctr_keys.count b)
    if repeated_branches.isEmpty = false then
      some (VError.aaba repeated_branches)
    else
      let exhausted : List (Option String × List VCommit) := []
      let commits_without_branch := commitsWithoutBranch exhausted
      if commits_without_branch.isEmpty = false then
        some (VError.unableToInfer (commits_without_branch.map (fun c => c.sha)))
      else
        none

/-- Python exceptions the source does not catch. -/
inductive PyError where
  | typeError
deriving DecidableEq, Repr

/-- The list comprehension shared by `push_branches` (lines 374-377) and
`create_and_update_prs` (lines 397-400): prepend the configured branch name
`pfx` to every group key.  When a group's key is `None`, Python evaluates
`str + None` and raises `TypeError`; evaluation is left to right, so the
first unlabeled group aborts the whole comprehension. -/
def mapGroupsPfx (pfx : String) :
    List (Option String × List VCommit) → Except PyError (List (String × List VCommit))
  | [] => Except.ok []
  | (b, cs) :: rest =>
    match b with
    | none => Except.error PyError.typeError
    | some s =>
      match mapGroupsPfx pfx rest with
      | Except.error e => Except.error e
      | Except.ok t => Except.ok ((pfx ++ s, cs) :: t)

/-- The `grouped_commits` value both push and PR planning start from. -/
def prefixed_groups (pfx : String) (cs : List VCommit) :
    Except PyError (List (String × List VCommit)) :=
  mapGroupsPfx pfx (groupByLabel cs)

/-- An open pull request as returned by the pull-request registry. -/
structure PR where
  number : Nat
  base_ref : String
  head_ref : String
  url : String
deriving DecidableEq, Repr

/-- The action `create_and_update_prs` takes for one branch group. -/
inductive PRAction where
  | create (branch base : String)
  | updateBase (number : Nat) (newBase : String)
  | noop (number : Nat)
deriving DecidableEq, Repr, Inhabited

/-- The per-group decision of `create_and_update_prs` (lines 410-446):
filter the open pull requests whose head ref equals the branch name, then
create, update the base, do nothing, or fail listing the candidates' URLs. -/
def pr_decision (openPulls : String → List PR) (branch base : String) :
    Except GPCError PRAction :=
  match (openPulls branch).filter (fun pr => pr.head_ref = branch) with
  | [] => Except.ok (PRAction.create branch base)
  | [pr] =>
    if pr.base_ref ≠ base then Except.ok (PRAction.updateBase pr.number base)
    else Except.ok (PRAction.noop pr.number)
  | prs => Except.error (GPCError.multipleOpenPRs branch (prs.map (fun pr => pr.url)))

/-- One planned reconciliation step: the group's branch name, the base
computed for it, and the decision taken. -/
structure PlanEntry where
  branch : String
  base : String
  action : PRAction
deriving DecidableEq, Repr, Inhabited

/-- The body of the `enumerate(grouped_commits)` loop, recursing over the
remaining groups while carrying the base of the next group (the previous
group's prefixed name); a fatal decision aborts the remainder, as `fatal`
does. -/
def plan_go (openPulls : String → List PR) (base : String) :
    List (String × List VCommit) → Except GPCError (List PlanEntry)
  | [] => Except.ok []
  | (branch, _) :: rest =>
    match pr_decision openPulls branch base with
    | Except.error e => Except.error e
    | Except.ok a =>
      match plan_go openPulls branch rest with
      | Except.error e => Except.error e
      | Except.ok t => Except.ok ({ branch := branch, base := base, action := a } :: t)

/-- Python `upstream.split("/")[-1]` (line 408): the branch component of the
tracked upstream ref. -/
def upstream_short_name (upstream : String) : String :=
  String.mk ((splitOnChar ('/') upstream.toList).getLastD [])

/-- The planning pass of `create_and_update_prs` (lines 395-446) over the
prefixed groups: group 0's base is the short name of the tracked upstream
branch, and each later group's base is the previous group's name. -/
def create_and_update_prs_plan (upstream : String) (openPulls : String → List PR)
    (groups : List (String × List VCommit)) : Except GPCError (List PlanEntry) :=
  plan_go openPulls (upstream_short_name upstream) groups

/-! Concrete commits used as counterexamples and failing inputs. -/

/-- A root commit annotated with branch `a`. -/
def c1Parent : Commit := { sha := "p", commit_msg := "GPC: a", parents := [] }

/-- A child whose message carries the stop pattern in the middle of a line,
so it is not an annotation line for the anchored `findall` but is found by
the unanchored stop `search`. -/
def c1Child : Commit := { sha := "c", commit_msg := "x GPC: STOP> x", parents := ["p"] }

/-- Three single-commit messages; the first and third consist of the bare
keyword line `GPC:`, whose captured annotation value is the empty string. -/
def c2Chain : List Commit :=
  [{ sha := "e1", commit_msg := "GPC:", parents := [] },
   { sha := "e2", commit_msg := "GPC: a", parents := ["e1"] },
   { sha := "e3", commit_msg := "GPC:", parents := ["e2"] }]

/-- A commit with two parents in the underlying repository. -/
def c3Merge : Commit := { sha := "m", commit_msg := "merge the thing", parents := ["aaa", "bbb"] }

/-- A commit whose sole message line is the annotation `git-pr-chain: STOP`,
the terminal marker as the spec spells it. -/
def c4Commit : Commit := { sha := "k", commit_msg := "git-pr-chain: STOP", parents := [] }

/-- An unannotated descendant of `c4Commit`. -/
def c4Child : Commit := { sha := "k2", commit_msg := "child work", parents := ["k"] }

/-- The same marker followed by a literal greater-than sign. -/
def c4Gt : Commit := { sha := "k3", commit_msg := "git-pr-chain: STOP>", parents := [] }

/-- A commit carrying the working stop spelling plus two further annotation
lines. -/
def c5Commit : Commit :=
  { sha := "s5", commit_msg := "GPC: STOP>\nGPC: a\nGPC: b", parents := [] }

/-- Commits with labels `a`, `None`, `b`: a `None` run strictly between two
labeled runs. -/
def c6Commits : List VCommit :=
  [{ sha := "s1", is_merge := false, label := some "a" },
   { sha := "s2", is_merge := false, label := none },
   { sha := "s3", is_merge := false, label := some "b" }]

/-- An unlabeled commit followed by a labeled one, as in the spec's own
worked scenario. -/
def c7Commits : List VCommit :=
  [{ sha := "a", is_merge := false, label := none },
   { sha := "b", is_merge := false, label := some "feat-x" }]

/-- Claim C1, counterexample: the child commit has no annotation match at all,
its parent resolves to branch `a`, yet the child resolves to no label rather
than inheriting `a`, because the unanchored stop regex matches the middle of
a line of its message. -/
theorem C1_counterexample :
    findGPCLines c1Child.commit_msg = [] ∧
    gh_branch [c1Parent] = Except.ok (some "a") ∧
    gh_branch [c1Child, c1Parent] = Except.ok none ∧
    (Except.ok none : Except GPCError (Option String)) ≠ Except.ok (some "a") := by
  decide

/-- Claim C2, counterexample: the non-null label value `""` (annotation line
`GPC:` with empty value) appears in two maximal runs separated by branch `a`,
yet validation passes, because the `Counter` that implements the AABA check
filters keys by Python truthiness and the empty string is falsy. -/
theorem C2_counterexample :
    resolve_all c2Chain = Except.ok [some "", some "a", some ""] ∧
    2 ≤ (runKeys [some "", some "a", some ""]).count (some "") ∧
    validate_branch_commits (deriveV c2Chain [some "", some "a", some ""]) = none := by
  decide

/-- Claim C3, code bug: a commit with two parents is never flagged as a merge
commit, because `is_merge_commit` splits the single-line space-separated
`%P` output on `"\n"`, so the count of pieces is always one; validation of a
chain containing it therefore raises no merge-commit error. -/
theorem C3_merge_check_dead :
    c3Merge.parents.length = 2 ∧
    is_merge_commit c3Merge = false ∧
    resolve_all [c3Merge] = Except.ok [none] ∧
    validate_branch_commits (deriveV [c3Merge] [none]) = none := by
  decide

/-- Claim C4, code bug: the annotation line `git-pr-chain: STOP`, whose value
is exactly the terminal marker `STOP`, does not mark the commit or its
descendant as non-pushable — the stop regex `STOP\>` demands a literal `>`
(the vim word-boundary escape means a plain `>` to Python `re`) — and the
commit instead resolves to a branch literally named `STOP`, which the
descendant inherits; only the spelling `STOP>` actually stops the chain. -/
theorem C4_stop_marker_not_detected :
    findGPCLines c4Commit.commit_msg = ["STOP"] ∧
    not_to_be_pushed [c4Commit] = false ∧
    gh_branch [c4Commit] = Except.ok (some "STOP") ∧
    not_to_be_pushed [c4Child, c4Commit] = false ∧
    gh_branch [c4Child, c4Commit] = Except.ok (some "STOP") ∧
    not_to_be_pushed [c4Gt] = true := by
  decide

/-- Claim C5, counterexample: a commit whose message yields three annotation
matches raises no error at all — its first line also matches the stop
pattern, so `gh_branch` returns `None` before ever scanning for
annotations. -/
theorem C5_counterexample :
    2 ≤ (findGPCLines c5Commit.commit_msg).length ∧
    gh_branch [c5Commit] = Except.ok none := by
  decide

/-- Claim C6, code bug: a `None` label run strictly between runs labeled `a`
and `b` passes validation, although re-deriving the group list shows the
middle commit is exactly what the check's own collection expression would
gather; the source computes it from the `groupby` iterator after the AABA
`Counter` has exhausted it, so the internal-consistency error can never
fire. -/
theorem C6_gap_check_dead :
    runKeys (c6Commits.map (fun c => c.label)) = [some "a", none, some "b"] ∧
    commitsWithoutBranch (groupByLabel c6Commits) =
      [{ sha := "s2", is_merge := false, label := none }] ∧
    validate_branch_commits c6Commits = none := by
  decide

/-- Claim C7, code bug: a validated sequence whose first commit has no label
makes the grouping comprehension shared by `push_branches` and
`create_and_update_prs` evaluate `branch_prefix + None`, which raises
`TypeError` and aborts the whole upload instead of skipping the unlabeled
commits; with every commit labeled the same comprehension succeeds and keeps
exactly the labeled groups. -/
theorem C7_unlabeled_group_type_error :
    validate_branch_commits c7Commits = none ∧
    prefixed_groups "gpc/" c7Commits = Except.error PyError.typeError ∧
    prefixed_groups "gpc/" [{ sha := "b", is_merge := false, label := some "feat-x" }] =
      Except.ok [("gpc/feat-x", [{ sha := "b", is_merge := false, label := some "feat-x" }])] := by
  decide

/-- Claim C10: a commit marked not-to-be-pushed resolves to no label, whatever
its message contains; in particular its annotation lines are never scanned,
so several of them raise no multiple-annotation error and an explicit branch
annotation is ignored. -/
theorem C10_stop_short_circuit (c : Commit) (ps : List Commit)
    (h : not_to_be_pushed (c :: ps) = true) :
    gh_branch (c :: ps) = Except.ok none := by
  simp [gh_branch, h]

/-- Claim C10, witness: a stopped commit carrying two further annotation
lines, one of them an explicit branch name, still resolves to no label. -/
theorem C10_stop_short_circuit_witness :
    not_to_be_pushed [c5Commit] = true ∧
    2 ≤ (findGPCLines c5Commit.commit_msg).length ∧
    gh_branch [c5Commit] = Except.ok none :=
  ⟨by decide, by decide, C10_stop_short_circuit c5Commit [] (by decide)⟩

/-- A chain of commits none of whose messages yields an annotation match
resolves to no label at its head. -/
lemma gh_branch_none_of_no_annots :
    ∀ cs : List Commit, (∀ d ∈ cs, findGPCLines d.commit_msg = []) →
      gh_branch cs = Except.ok none := by
  intro cs
  induction cs with
  | nil => intro _; rfl
  | cons c ps ih =>
    intro h
    by_cases hstop : not_to_be_pushed (c :: ps) = true
    · simp [gh_branch, hstop]
    · have hc : findGPCLines c.commit_msg = [] := h c (List.mem_cons_self c ps)
      simp only [gh_branch, hstop, if_false, hc]
      exact ih fun d hd => h d (List.mem_cons_of_mem c hd)

/-- Resolving a run of annotation-free commits on top of ancestors that
resolve to no label yields no label everywhere. -/
lemma resolve_go_none :
    ∀ (cs ps : List Commit), (∀ d ∈ cs, findGPCLines d.commit_msg = []) →
      gh_branch ps = Except.ok none →
      resolve_go ps cs = Except.ok (cs.map fun _ => none) := by
  intro cs
  induction cs with
  | nil => intro ps _ _; rfl
  | cons c rest ih =>
    intro ps h hps
    have hc : findGPCLines c.commit_msg = [] := h c (List.mem_cons_self c rest)
    have hcur : gh_branch (c :: ps) = Except.ok none := by
      by_cases hstop : not_to_be_pushed (c :: ps) = true
      · simp [gh_branch, hstop]
      · simp only [gh_branch, hstop, if_false, hc]
        exact hps
    have hrest : resolve_go (c :: ps) rest = Except.ok (rest.map fun _ => none) :=
      ih (c :: ps) (fun d hd => h d (List.mem_cons_of_mem c hd)) hcur
    simp [resolve_go, hcur, hrest]

/-- Claim C1 (amended): a commit with no annotation match and no stop-pattern
match anywhere in its message resolves exactly as its parent chain does; a
root commit with no annotation resolves to no label; and a chain with zero
annotation matches resolves every commit to no label, the root's label. -/
theorem C1_label_inheritance (c : Commit) (ps cs : List Commit) :
    (findGPCLines c.commit_msg = [] → msgHasStop c.commit_msg = false →
      gh_branch (c :: ps) = gh_branch ps) ∧
    (findGPCLines c.commit_msg = [] → gh_branch [c] = Except.ok none) ∧
    ((∀ d ∈ cs, findGPCLines d.commit_msg = []) →
      resolve_all cs = Except.ok (cs.map fun _ => none)) := by
  refine ⟨fun h1 h2 => ?_, fun h1 => ?_, fun h => resolve_go_none cs [] h rfl⟩
  · cases hps : not_to_be_pushed ps with
    | true =>
      have hcp : not_to_be_pushed (c :: ps) = true := by
        simp [not_to_be_pushed, hps]
      cases ps with
      | nil => simp [not_to_be_pushed] at hps
      | cons p ps' =>
        simp [gh_branch, hcp, hps]
    | false =>
      have hcp : not_to_be_pushed (c :: ps) = false := by
        simp [not_to_be_pushed, hps, h2]
      simp [gh_branch, hcp, h1]
  · by_cases hstop : not_to_be_pushed [c] = true
    · simp [gh_branch, hstop]
    · simp [gh_branch, hstop, h1]

/-- Claim C1, witness: an annotation-free commit on top of a parent labeled
`a` inherits `a`; an annotation-free root resolves to no label; a two-commit
chain with no annotations resolves both commits to no label. -/
theorem C1_label_inheritance_witness :
    gh_branch
        [{ sha := "w1", commit_msg := "plain work", parents := ["p"] }, c1Parent] =
      gh_branch [c1Parent] ∧
    gh_branch [{ sha := "w1", commit_msg := "plain work", parents := ["p"] }] =
      Except.ok none ∧
    resolve_all
        [{ sha := "w2", commit_msg := "one", parents := [] },
         { sha := "w3", commit_msg := "two", parents := ["w2"] }] =
      Except.ok [none, none] :=
  ⟨(C1_label_inheritance { sha := "w1", commit_msg := "plain work", parents := ["p"] }
      [c1Parent] []).1 (by decide) (by decide),
   (C1_label_inheritance { sha := "w1", commit_msg := "plain work", parents := ["p"] }
      [] []).2.1 (by decide),
   (C1_label_inheritance c1Parent []
      [{ sha := "w2", commit_msg := "one", parents := [] },
       { sha := "w3", commit_msg := "two", parents := ["w2"] }]).2.2 (by decide)⟩

/-- Claim C5 (amended): a commit that is not marked non-pushable and on whose
message the annotation `findall` yields at least two matches makes label
resolution fail with the multiple-lines fatal error naming that commit.  (An
empty-value annotation line merges with the following line into one match,
so such a pair does not count as two.) -/
theorem C5_multiple_lines_fatal (c : Commit) (ps : List Commit)
    (h1 : not_to_be_pushed (c :: ps) = false)
    (h2 : 2 ≤ (findGPCLines c.commit_msg).length) :
    gh_branch (c :: ps) = Except.error (GPCError.multipleGPCLines c.sha) := by
  match hm : findGPCLines c.commit_msg with
  | [] => rw [hm] at h2; simp at h2
  | [m] => rw [hm] at h2; simp at h2
  | m1 :: m2 :: ms => simp [gh_branch, h1, hm]

/-- Claim C5, witness: a pushable root commit whose message yields two
annotation matches is rejected with the fatal error carrying its hash. -/
theorem C5_multiple_lines_fatal_witness :
    gh_branch [{ sha := "w5", commit_msg := "GPC: a\nGPC: b", parents := [] }] =
      Except.error (GPCError.multipleGPCLines "w5") :=
  C5_multiple_lines_fatal { sha := "w5", commit_msg := "GPC: a\nGPC: b", parents := [] }
    [] (by decide) (by decide)

/-- Bases computed by the sequential planning loop: the first entry uses the
base handed in, every later entry uses the previous group's name. -/
lemma plan_go_bases (openPulls : String → List PR) :
    ∀ (groups : List (String × List VCommit)) (base : String) (entries : List PlanEntry),
      plan_go openPulls base groups = Except.ok entries →
      entries.length = groups.length ∧
      (groups ≠ [] → (entries.getD 0 default).base = base) ∧
      (∀ i, i + 1 < groups.length →
        (entries.getD (i + 1) default).base = (groups.getD i ("", [])).1) := by
  intro groups
  induction groups with
  | nil =>
    intro base entries h
    simp only [plan_go] at h
    cases h
    exact ⟨rfl, fun hne => absurd rfl hne, fun i hi => by simp at hi⟩
  | cons g rest ih =>
    intro base entries h
    obtain ⟨branch, gcs⟩ := g
    simp only [plan_go] at h
    cases hd : pr_decision openPulls branch base with
    | error e => rw [hd] at h; cases h
    | ok a =>
      rw [hd] at h
      cases ht : plan_go openPulls branch rest with
      | error e => rw [ht] at h; cases h
      | ok t =>
        rw [ht] at h
        cases h
        obtain ⟨hlen, hfirst, hrest⟩ := ih branch t ht
        refine ⟨by simp [hlen], fun _ => rfl, fun i hi => ?_⟩
        cases i with
        | zero =>
          have hne : rest ≠ [] := by
            intro hr
            rw [hr] at hi
            simp at hi
          simpa using hfirst hne
        | succ j =>
          have hj : j + 1 < rest.length := by
            simpa [Nat.succ_lt_succ_iff] using hi
          simpa using hrest j hj

/-- Claim C8: whenever the PR planning pass completes, it produced one entry
per branch group, the first group's base is the short name of the tracked
upstream branch, and every later group's base is the previous group's
(prefixed) name. -/
theorem C8_base_chain (upstream : String) (openPulls : String → List PR)
    (groups : List (String × List VCommit)) (entries : List PlanEntry)
    (h : create_and_update_prs_plan upstream openPulls groups = Except.ok entries) :
    entries.length = groups.length ∧
    (groups ≠ [] → (entries.getD 0 default).base = upstream_short_name upstream) ∧
    (∀ i, i + 1 < groups.length →
      (entries.getD (i + 1) default).base = (groups.getD i ("", [])).1) :=
  plan_go_bases openPulls groups (upstream_short_name upstream) entries h

/-- Claim C8, witness: planning two groups below upstream `origin/main` bases
the first on `main` and the second on the first group's name. -/
theorem C8_base_chain_witness :
    create_and_update_prs_plan "origin/main" (fun _ => []) [("gpc/x", []), ("gpc/y", [])] =
      Except.ok
        [{ branch := "gpc/x", base := "main", action := PRAction.create "gpc/x" "main" },
         { branch := "gpc/y", base := "gpc/x", action := PRAction.create "gpc/y" "gpc/x" }] ∧
    ([{ branch := "gpc/x", base := "main", action := PRAction.create "gpc/x" "main" },
      { branch := "gpc/y", base := "gpc/x", action := PRAction.create "gpc/y" "gpc/x" }]
        : List PlanEntry).length = 2 ∧
    (([{ branch := "gpc/x", base := "main", action := PRAction.create "gpc/x" "main" },
       { branch := "gpc/y", base := "gpc/x", action := PRAction.create "gpc/y" "gpc/x" }]
        : List PlanEntry).getD 0 default).base = upstream_short_name "origin/main" ∧
    (([{ branch := "gpc/x", base := "main", action := PRAction.create "gpc/x" "main" },
       { branch := "gpc/y", base := "gpc/x", action := PRAction.create "gpc/y" "gpc/x" }]
        : List PlanEntry).getD 1 default).base = ("gpc/x", ([] : List VCommit)).1 :=
  ⟨by decide,
   (C8_base_chain "origin/main" (fun _ => []) [("gpc/x", []), ("gpc/y", [])] _ (by decide)).1,
   (C8_base_chain "origin/main" (fun _ => []) [("gpc/x", []), ("gpc/y", [])] _ (by decide)).2.1
     (by decide),
   (C8_base_chain "origin/main" (fun _ => []) [("gpc/x", []), ("gpc/y", [])] _ (by decide)).2.2
     0 (by decide)⟩

/-- Claim C9: for one branch group the planner creates a pull request when no
open one targets the branch, updates the base when exactly one does and its
base differs, does nothing when the base already matches, and fails fatally
listing every candidate's URL when several target the branch. -/
theorem C9_pr_decision_cases (openPulls : String → List PR) (branch base : String) :
    ((openPulls branch).filter (fun pr => pr.head_ref = branch) = [] →
      pr_decision openPulls branch base = Except.ok (PRAction.create branch base)) ∧
    (∀ pr, (openPulls branch).filter (fun pr => pr.head_ref = branch) = [pr] →
      pr.base_ref ≠ base →
      pr_decision openPulls branch base = Except.ok (PRAction.updateBase pr.number base)) ∧
    (∀ pr, (openPulls branch).filter (fun pr => pr.head_ref = branch) = [pr] →
      pr.base_ref = base →
      pr_decision openPulls branch base = Except.ok (PRAction.noop pr.number)) ∧
    (2 ≤ ((openPulls branch).filter (fun pr => pr.head_ref = branch)).length →
      pr_decision openPulls branch base =
        Except.error (GPCError.multipleOpenPRs branch
          (((openPulls branch).filter (fun pr => pr.head_ref = branch)).map
            (fun pr => pr.url)))) := by
  refine ⟨fun h => ?_, fun pr h hne => ?_, fun pr h heq => ?_, fun h => ?_⟩
  · simp [pr_decision, h]
  · simp [pr_decision, h, hne]
  · simp [pr_decision, h, heq]
  · match hl : (openPulls branch).filter (fun pr => pr.head_ref = branch) with
    | [] => rw [hl] at h; simp at h
    | [x] => rw [hl] at h; simp at h
    | x :: y :: ys => simp [pr_decision, hl]

/-- Claim C9, witness: with one open pull request for `feat-x` based on
`develop` and computed base `main`, the planner updates the base; with none
it creates; with a matching base it does nothing; with two it fails listing
both URLs. -/
theorem C9_pr_decision_cases_witness :
    pr_decision (fun _ => []) "feat-x" "main" =
      Except.ok (PRAction.create "feat-x" "main") ∧
    pr_decision
        (fun _ => [{ number := 7, base_ref := "develop", head_ref := "feat-x", url := "u7" }])
        "feat-x" "main" =
      Except.ok (PRAction.updateBase 7 "main") ∧
    pr_decision
        (fun _ => [{ number := 7, base_ref := "main", head_ref := "feat-x", url := "u7" }])
        "feat-x" "main" =
      Except.ok (PRAction.noop 7) ∧
    pr_decision
        (fun _ =>
          [{ number := 7, base_ref := "develop", head_ref := "feat-x", url := "u7" },
           { number := 9, base_ref := "main", head_ref := "feat-x", url := "u9" }])
        "feat-x" "main" =
      Except.error (GPCError.multipleOpenPRs "feat-x" ["u7", "u9"]) :=
  ⟨(C9_pr_decision_cases (fun _ => []) "feat-x" "main").1 (by decide),
   (C9_pr_decision_cases
      (fun _ => [{ number := 7, base_ref := "develop", head_ref := "feat-x", url := "u7" }])
      "feat-x" "main").2.1
     { number := 7, base_ref := "develop", head_ref := "feat-x", url := "u7" }
     (by decide) (by decide),
   (C9_pr_decision_cases
      (fun _ => [{ number := 7, base_ref := "main", head_ref := "feat-x", url := "u7" }])
      "feat-x" "main").2.2.1
     { number := 7, base_ref := "main", head_ref := "feat-x", url := "u7" }
     (by decide) (by decide),
   (C9_pr_decision_cases
      (fun _ =>
        [{ number := 7, base_ref := "develop", head_ref := "feat-x", url := "u7" },
         { number := 9, base_ref := "main", head_ref := "feat-x", url := "u9" }])
      "feat-x" "main").2.2.2 (by decide)⟩

/-- Characters of a space-join are spaces or characters of the parts. -/
lemma mem_joinSpace {x : Char} :
    ∀ ps : List (List Char), x ∈ joinSpace ps → x = ' ' ∨ ∃ p ∈ ps, x ∈ p := by
  intro ps
  induction ps with
  | nil => intro h; simp [joinSpace] at h
  | cons p rest ih =>
    intro h
    cases rest with
    | nil =>
      simp only [joinSpace] at h
      exact Or.inr ⟨p, by simp, h⟩
    | cons q rest' =>
      simp only [joinSpace, List.mem_append, List.mem_cons] at h
      rcases h with hp | hq
      · exact Or.inr ⟨p, by simp, hp⟩
      · rcases hq with hsp | hrest
        · exact Or.inl hsp
        · rcases ih hrest with hsp | ⟨r, hr, hx⟩
          · exact Or.inl hsp
          · exact Or.inr ⟨r, List.mem_cons_of_mem p hr, hx⟩

/-- Splitting on a character that does not occur yields the single piece. -/
lemma splitOnChar_no_sep (sep : Char) :
    ∀ l : List Char, sep ∉ l → splitOnChar sep l = [l] := by
  intro l
  induction l with
  | nil => intro _; rfl
  | cons c rest ih =>
    intro h
    have hc : c ≠ sep := fun hcs => h (hcs ▸ List.mem_cons_self c rest)
    have hr : sep ∉ rest := fun hs => h (List.mem_cons_of_mem c hs)
    simp [splitOnChar, ih hr, hc]

/-- With newline-free parent hashes the derived merge flag is always false:
the `%P` line is split on `"\n"`, which never occurs in it. -/
lemma is_merge_commit_false (c : Commit)
    (h : ∀ p ∈ c.parents, ('\n') ∉ p.toList) : is_merge_commit c = false := by
  have hnl : ('\n') ∉ parentsLine c := by
    intro hmem
    rcases mem_joinSpace (c.parents.map String.toList) hmem with hsp | ⟨r, hr, hx⟩
    · exact absurd hsp (by decide)
    · rcases List.mem_map.mp hr with ⟨p, hp, rfl⟩
      exact h p hp hx
  simp [is_merge_commit, splitOnChar_no_sep ('\n') (parentsLine c) hnl]

/-- Group keys of the consecutive grouping are the run keys of the label
sequence. -/
lemma groupByLabel_keys :
    ∀ vcs : List VCommit,
      (groupByLabel vcs).map Prod.fst = runKeys (vcs.map fun c => c.label) := by
  intro vcs
  induction vcs with
  | nil => rfl
  | cons c rest ih =>
    cases hg : groupByLabel rest with
    | nil =>
      have hrk : runKeys (rest.map fun c => c.label) = [] := by
        rw [← ih, hg]; rfl
      simp [groupByLabel, runKeys, hg, hrk]
    | cons kg gs =>
      have hrk : runKeys (rest.map fun c => c.label) = kg.1 :: gs.map Prod.fst := by
        rw [← ih, hg]; rfl
      obtain ⟨k, g⟩ := kg
      by_cases hck : c.label = k
      · simp [groupByLabel, runKeys, hg, hrk, hck]
      · simp [groupByLabel, runKeys, hg, hrk, hck]

/-- Membership is preserved by first-occurrence deduplication. -/
lemma mem_dedupKeys : ∀ (l : List String) (s : String), s ∈ dedupKeys l ↔ s ∈ l := by
  intro l
  induction l with
  | nil => intro s; simp [dedupKeys]
  | cons k rest ih =>
    intro s
    by_cases hs : s = k
    · subst hs
      simp [dedupKeys]
    · simp [dedupKeys, List.mem_filter, hs, ih s]

/-- Counting a non-empty string through the truthiness filter agrees with
counting its `some` in the unfiltered keys. -/
lemma count_filterMap_truthy (s : String) (hs : s ≠ "") :
    ∀ l : List (Option String), (l.filterMap truthy).count s = l.count (some s) := by
  intro l
  induction l with
  | nil => rfl
  | cons o rest ih =>
    cases o with
    | none =>
      simp only [List.filterMap_cons, truthy, Option.bind]
      rw [List.count_cons]
      simp [ih]
    | some b =>
      by_cases hb : b = ""
      · subst hb
        have hbs : ((some "" : Option String) == some s) = false := by
          simp [hs.symm]
        simp only [List.filterMap_cons, truthy, Option.bind]
        rw [List.count_cons, hbs]
        simp [ih]
      · have htr : truthy (some b) = some b := by simp [truthy, hb]
        simp only [List.filterMap_cons, htr]
        rw [List.count_cons, List.count_cons, ih]
        by_cases hbs : b = s
        · simp [hbs]
        · simp [hbs, fun h => hbs (Option.some.inj h)]

/-- Everything surviving the truthiness filter is a non-empty string. -/
lemma ne_empty_of_mem_filterMap_truthy {s : String} :
    ∀ l : List (Option String), s ∈ l.filterMap truthy → s ≠ "" := by
  intro l hmem
  rcases List.mem_filterMap.mp hmem with ⟨o, _, ho⟩
  cases o with
  | none => simp [truthy] at ho
  | some b =>
    by_cases hb : b = ""
    · subst hb; simp [truthy] at ho
    · simp only [truthy, Option.bind, hb, if_false] at ho
      cases ho
      exact hb

/-- Resolution succeeds with one label per commit. -/
lemma resolve_go_length :
    ∀ (cs ps : List Commit) (ls : List (Option String)),
      resolve_go ps cs = Except.ok ls → ls.length = cs.length := by
  intro cs
  induction cs with
  | nil =>
    intro ps ls h
    simp only [resolve_go] at h
    cases h
    rfl
  | cons c rest ih =>
    intro ps ls h
    simp only [resolve_go] at h
    cases hb : gh_branch (c :: ps) with
    | error e => rw [hb] at h; cases h
    | ok l =>
      rw [hb] at h
      cases hr : resolve_go (c :: ps) rest with
      | error e => rw [hr] at h; cases h
      | ok t =>
        rw [hr] at h
        cases h
        simp [ih (c :: ps) t hr]

/-- The labels attached by `deriveV` are the resolved labels. -/
lemma deriveV_labels (cs : List Commit) (labels : List (Option String))
    (h : labels.length = cs.length) :
    (deriveV cs labels).map (fun c => c.label) = labels := by
  unfold deriveV
  rw [List.map_map]
  have : ((fun c : VCommit => c.label) ∘ fun p : Commit × Option String =>
      ({ sha := p.1.sha, is_merge := is_merge_commit p.1, label := p.2 } : VCommit)) =
      Prod.snd := rfl
  rw [this]
  exact List.map_snd_zip cs labels (le_of_eq h)

/-- Every commit reaching validation through `deriveV` has a false merge
flag when the parent hashes are newline-free. -/
lemma deriveV_no_merge (cs : List Commit) (labels : List (Option String))
    (hp : ∀ c ∈ cs, ∀ p ∈ c.parents, ('\n') ∉ p.toList) :
    (deriveV cs labels).filter (fun c => c.is_merge) = [] := by
  apply List.filter_eq_nil_iff.mpr
  intro vc hvc
  rcases List.mem_map.mp hvc with ⟨p, hpmem, rfl⟩
  have hc : p.1 ∈ cs := (List.of_mem_zip hpmem).1
  simp [is_merge_commit_false p.1 (hp p.1 hc)]

/-- With no merge commits, validation reduces to the AABA counter; the
defensive third check is dead because the `groupby` iterator is exhausted. -/
lemma validate_eq_aaba_check (vcs : List VCommit)
    (hm : vcs.filter (fun c => c.is_merge) = []) :
    validate_branch_commits vcs =
      (if ((dedupKeys ((groupByLabel vcs).filterMap fun g => truthy g.1)).filter
            (fun b => 1 < ((groupByLabel vcs).filterMap fun g => truthy g.1).count b)).isEmpty
          = false then
        some (VError.aaba
          ((dedupKeys ((groupByLabel vcs).filterMap fun g => truthy g.1)).filter
            (fun b => 1 < ((groupByLabel vcs).filterMap fun g => truthy g.1).count b)))
      else none) := by
  simp [validate_branch_commits, hm, commitsWithoutBranch]

/-- Claim C2 (amended): for a chain whose labels resolve and whose parent
hashes are newline-free, validation fails with the AABA error precisely when
some non-null, non-empty label value heads more than one maximal run;
an empty-string label is falsy in Python and escapes the `Counter`. -/
theorem C2_aaba_iff (cs : List Commit) (labels : List (Option String))
    (hres : resolve_all cs = Except.ok labels)
    (hp : ∀ c ∈ cs, ∀ p ∈ c.parents, ('\n') ∉ p.toList) :
    (∃ bs, validate_branch_commits (deriveV cs labels) = some (VError.aaba bs)) ↔
      ∃ s : String, s ≠ "" ∧ 2 ≤ (runKeys labels).count (some s) := by
  have hlen : labels.length = cs.length := resolve_go_length cs [] labels hres
  have hm := deriveV_no_merge cs labels hp
  have hkeys : (groupByLabel (deriveV cs labels)).map Prod.fst = runKeys labels := by
    rw [groupByLabel_keys, deriveV_labels cs labels hlen]
  have hks : ((groupByLabel (deriveV cs labels)).filterMap fun g => truthy g.1) =
      (runKeys labels).filterMap truthy := by
    rw [← hkeys, List.filterMap_map]
    rfl
  rw [validate_eq_aaba_check (deriveV cs labels) hm, hks]
  constructor
  · rintro ⟨bs, hbs⟩
    by_cases hrep : ((dedupKeys ((runKeys labels).filterMap truthy)).filter
        (fun b => 1 < ((runKeys labels).filterMap truthy).count b)).isEmpty = false
    · rw [if_pos hrep] at hbs
      have hne : ((dedupKeys ((runKeys labels).filterMap truthy)).filter
          (fun b => 1 < ((runKeys labels).filterMap truthy).count b)) ≠ [] := by
        intro hnil
        rw [hnil] at hrep
        simp at hrep
      rcases List.exists_mem_of_ne_nil _ hne with ⟨b, hb⟩
      have hfil := List.mem_filter.mp hb
      have hbmem : b ∈ (runKeys labels).filterMap truthy :=
        (mem_dedupKeys _ b).mp hfil.1
      have hbne : b ≠ "" := ne_empty_of_mem_filterMap_truthy (runKeys labels) hbmem
      have hcount : 1 < ((runKeys labels).filterMap truthy).count b := by
        have := hfil.2
        simpa using this
      refine ⟨b, hbne, ?_⟩
      rw [← count_filterMap_truthy b hbne (runKeys labels)]
      exact hcount
    · rw [if_neg hrep] at hbs
      cases hbs
  · rintro ⟨s, hsne, hscount⟩
    have hcount : 1 < ((runKeys labels).filterMap truthy).count s := by
      rw [count_filterMap_truthy s hsne (runKeys labels)]
      exact hscount
    have hmem : s ∈ (runKeys labels).filterMap truthy :=
      List.count_pos_iff.mp (lt_trans Nat.zero_lt_one hcount)
    have hsfil : s ∈ (dedupKeys ((runKeys labels).filterMap truthy)).filter
        (fun b => 1 < ((runKeys labels).filterMap truthy).count b) := by
      apply List.mem_filter.mpr
      exact ⟨(mem_dedupKeys _ s).mpr hmem, by simpa using hcount⟩
    have hne : ((dedupKeys ((runKeys labels).filterMap truthy)).filter
        (fun b => 1 < ((runKeys labels).filterMap truthy).count b)) ≠ [] :=
      List.ne_nil_of_mem hsfil
    have hrep : ((dedupKeys ((runKeys labels).filterMap truthy)).filter
        (fun b => 1 < ((runKeys labels).filterMap truthy).count b)).isEmpty = false := by
      cases hl : ((dedupKeys ((runKeys labels).filterMap truthy)).filter
          (fun b => 1 < ((runKeys labels).filterMap truthy).count b)) with
      | nil => exact absurd hl hne
      | cons x xs => simp
    rw [if_pos hrep]
    exact ⟨_, rfl⟩

/-- Claim C2, witness: labels `a`, `b`, `a` resolve from three annotated
commits, `a` heads two maximal runs, and validation fails with the AABA
error naming `a`. -/
theorem C2_aaba_iff_witness :
    resolve_all
        [{ sha := "v1", commit_msg := "GPC: a", parents := [] },
         { sha := "v2", commit_msg := "GPC: b", parents := ["v1"] },
         { sha := "v3", commit_msg := "GPC: a", parents := ["v2"] }] =
      Except.ok [some "a", some "b", some "a"] ∧
    2 ≤ (runKeys [some "a", some "b", some "a"]).count (some "a") ∧
    validate_branch_commits
        (deriveV
          [{ sha := "v1", commit_msg := "GPC: a", parents := [] },
           { sha := "v2", commit_msg := "GPC: b", parents := ["v1"] },
           { sha := "v3", commit_msg := "GPC: a", parents := ["v2"] }]
          [some "a", some "b", some "a"]) =
      some (VError.aaba ["a"]) := by
  refine ⟨by decide, by decide, ?_⟩
  obtain ⟨bs, hbs⟩ :=
    (C2_aaba_iff
        [{ sha := "v1", commit_msg := "GPC: a", parents := [] },
         { sha := "v2", commit_msg := "GPC: b", parents := ["v1"] },
         { sha := "v3", commit_msg := "GPC: a", parents := ["v2"] }]
        [some "a", some "b", some "a"] (by decide) (by decide)).mpr
      ⟨"a", by decide, by decide⟩
  have hbseq : bs = ["a"] := by
    have := hbs
    rw [show validate_branch_commits
        (deriveV
          [{ sha := "v1", commit_msg := "GPC: a", parents := [] },
           { sha := "v2", commit_msg := "GPC: b", parents := ["v1"] },
           { sha := "v3", commit_msg := "GPC: a", parents := ["v2"] }]
          [some "a", some "b", some "a"]) = some (VError.aaba ["a"]) from by decide] at this
    cases this
    rfl
  rw [← hbseq]
  exact hbs

end GitPrChain
